import Mathlib

/-!
Verification of the job-scout feed-aggregation pipeline (`app.py`).

The Python program is shallowly embedded: Python strings are Lean `String`s
manipulated through character-list helpers that mirror Python's `str`
semantics (`strip`, `split(",")`, `lower`, substring containment `in`,
lexicographic comparison); `feedparser` timestamps (`struct_time[:6]`) are a
six-field record converted to epoch seconds exactly as
`datetime(*t[:6], tzinfo=utc)` induces; dictionaries produced by the pipeline
are the two-constructor sum `Item` (a normalized posting or a per-feed fetch
error), with `.get`-style accessors returning `Option` values; the fallible
`feedparser.parse` call is an explicit environment `String → FetchOutcome`.
-/

namespace JobScout

/-- Python `str.lower()` (per character, as `str.lower` acts pointwise). -/
def pyLower (s : String) : String := String.mk (s.data.map Char.toLower)

/-- Both-ends whitespace trim on a character list, Python `str.strip()`. -/
def pyStripChars (cs : List Char) : List Char :=
  ((cs.dropWhile Char.isWhitespace).reverse.dropWhile Char.isWhitespace).reverse

/-- Python `str.strip()` with no arguments. -/
def pyStrip (s : String) : String := String.mk (pyStripChars s.data)

/-- Split a character list on a separator character, keeping empty pieces,
Python `str.split(sep)` with a one-character separator. -/
def splitOnChar (sep : Char) : List Char → List (List Char)
  | [] => [[]]
  | c :: rest =>
    let r := splitOnChar sep rest
    if c == sep then [] :: r
    else
      match r with
      | [] => [[c]]
      | h :: t => (c :: h) :: t

/-- Python `value.split(",")`. -/
def pySplitComma (s : String) : List String :=
  (splitOnChar ',' s.data).map String.mk

/-- Contiguous-sublist test on character lists; `containsSub hay needle` is
Python `needle in hay` for strings (true for an empty needle). -/
def containsSub (hay needle : List Char) : Bool :=
  if needle.isPrefixOf hay then true
  else
    match hay with
    | [] => false
    | _ :: t => containsSub t needle

/-- Python `needle in hay` on strings. -/
def pyIn (needle hay : String) : Bool := containsSub hay.data needle.data

/-- Python `s.startswith("#")`. -/
def startsWithHash (s : String) : Bool :=
  match s.data with
  | [] => false
  | c :: _ => c == '#'

/-- Strict lexicographic order on character lists by code point, the order
Python uses to compare `str` values. -/
def charListLt : List Char → List Char → Bool
  | _, [] => false
  | [], _ :: _ => true
  | a :: as, b :: bs => a < b || (a == b && charListLt as bs)

/-- Python `a < b` on strings. -/
def pyStrLt (a b : String) : Bool := charListLt a.data b.data

/-- The first six fields of a `time.struct_time` — year, month, day, hour,
minute, second — as consumed by `datetime(*t[:6], tzinfo=timezone.utc)`. -/
structure Tm where
  year : Nat
  month : Nat
  day : Nat
  hour : Nat
  minute : Nat
  second : Nat
deriving DecidableEq

/-- Days since 1970-01-01 of a proleptic-Gregorian civil date (the standard
days-from-civil computation underlying `datetime` ordering). -/
def daysFromCivil (y m d : Int) : Int :=
  let y2 : Int := if m ≤ 2 then y - 1 else y
  let era : Int := (if 0 ≤ y2 then y2 else y2 - 399) / 400
  let yoe : Int := y2 - era * 400
  let mp : Int := (m + 9) % 12
  let doy : Int := (153 * mp + 2) / 5 + d - 1
  let doe : Int := yoe * 365 + yoe / 4 - yoe / 100 + doy
  era * 146097 + doe - 719468

/-- The UTC instant `datetime(*t[:6], tzinfo=timezone.utc)` as epoch seconds;
comparison on these integers is exactly `datetime` comparison. -/
def toEpoch (t : Tm) : Int :=
  daysFromCivil t.year t.month t.day * 86400
    + t.hour * 3600 + t.minute * 60 + t.second

/-- Decimal digits of a natural number (structural fuel recursion). -/
def natDigitsAux : Nat → Nat → List Char
  | 0, _ => []
  | fuel + 1, n =>
    if n < 10 then [Char.ofNat (48 + n)]
    else natDigitsAux fuel (n / 10) ++ [Char.ofNat (48 + n % 10)]

/-- A natural number rendered in decimal, zero-padded to width `w`. -/
def padNum (w n : Nat) : String :=
  let ds := natDigitsAux (n + 1) n
  String.mk (List.replicate (w - ds.length) '0' ++ ds)

/-- `datetime(*t[:6], tzinfo=timezone.utc).isoformat()`. -/
def isoformat (t : Tm) : String :=
  padNum 4 t.year ++ "-" ++ padNum 2 t.month ++ "-" ++ padNum 2 t.day
    ++ "T" ++ padNum 2 t.hour ++ ":" ++ padNum 2 t.minute ++ ":" ++ padNum 2 t.second
    ++ "+00:00"

/-- Everything up to the next `/`, `?` or `#` — the extent of the authority
component in `urllib.parse`. -/
def takeAuthority (cs : List Char) : List Char :=
  cs.takeWhile (fun c => !(c == '/' || c == '?' || c == '#'))

/-- The remainder after the first `:`, if any. -/
def afterColon : List Char → Option (List Char)
  | [] => none
  | c :: rest => if c == ':' then some rest else afterColon rest

/-- Modelled after `urllib.parse.urlparse(url).netloc`: the authority is
present only when the URL starts with `//` directly or right after its
`scheme:`, and extends to the next `/`, `?` or `#`; otherwise empty. -/
def netloc (url : String) : String :=
  let cs := url.data
  if ['/', '/'].isPrefixOf cs then String.mk (takeAuthority (cs.drop 2))
  else
    match afterColon cs with
    | some rest =>
      if ['/', '/'].isPrefixOf rest then String.mk (takeAuthority (rest.drop 2))
      else ""
    | none => ""

/-- `parse_env_list` from `app.py`: empty input gives `[]`, otherwise the
comma-separated pieces, stripped, with empty pieces dropped. -/
def parse_env_list (value : String) : List String :=
  if value.data.isEmpty then []
  else ((pySplitComma value).map pyStrip).filter (fun v => !v.data.isEmpty)

/-- `load_feeds_from_file` from `app.py`. The file system is abstracted as
`Option (List String)`: `none` when the path is empty or the file does not
exist (the function returns `[]`), `some lines` for an existing file whose
raw lines are `lines`. Kept lines are stripped; blank lines and lines whose
stripped form starts with `#` are skipped. -/
def load_feeds_from_file (file : Option (List String)) : List String :=
  match file with
  | none => []
  | some lines =>
    (lines.filter
        (fun line => !(pyStrip line).data.isEmpty && !startsWithHash (pyStrip line))).map
      pyStrip

/-- Feed-list resolution in `get_config` (`app.py` lines 40–42): the parsed
explicit list wins when non-empty, else the file-based list. -/
def resolveFeeds (feed_urls_env : String) (feeds_file : Option (List String)) : List String :=
  let feeds := parse_env_list feed_urls_env
  if feeds.isEmpty then load_feeds_from_file feeds_file else feeds

/-- A raw feed entry: each field is `none` when the attribute is missing
(or, for the timestamps, present but `None`/falsy), mirroring the program's
defensive `getattr`/`hasattr` access. -/
structure Entry where
  title : Option String
  link : Option String
  summary : Option String
  description : Option String
  published_parsed : Option Tm
  updated_parsed : Option Tm
deriving DecidableEq

/-- A result-set record: a normalized posting dictionary or a per-feed
fetch-error dictionary `{"error": message}`. -/
inductive Item where
  | posting (title link summary : String) (published : Option String) (source : String)
  | fetchError (message : String)
deriving DecidableEq

/-- `r.get("link")`: postings carry a `link` key (possibly empty), error
records do not (`None`). -/
def Item.getLink : Item → Option String
  | .posting _ l _ _ _ => some l
  | .fetchError _ => none

/-- `r.get("title")`. -/
def Item.getTitle : Item → Option String
  | .posting t _ _ _ _ => some t
  | .fetchError _ => none

/-- `r.get("published")`: a posting's stored value (itself possibly `None`),
absent on error records. -/
def Item.getPublished : Item → Option String
  | .posting _ _ _ p _ => p
  | .fetchError _ => none

/-- Whether the record is a normalized posting. -/
def Item.isPosting : Item → Bool
  | .posting _ _ _ _ _ => true
  | .fetchError _ => false

/-- Whether the record is a fetch-error record. -/
def Item.isError : Item → Bool
  | .posting _ _ _ _ _ => false
  | .fetchError _ => true

/-- `within_hours` from `app.py`: false with no timestamp, else
`datetime(*t[:6], utc) >= now - timedelta(hours=hours)`. -/
def within_hours (published_parsed : Option Tm) (hours : Int) (now : Int) : Bool :=
  match published_parsed with
  | none => false
  | some t => decide (now - hours * 3600 ≤ toEpoch t)

/-- `match_keywords` from `app.py`: lowercase the text, then any-substring
over the keywords; vacuously true when the keyword list is empty. -/
def match_keywords (text : String) (keywords : List String) : Bool :=
  let t := pyLower text
  if keywords.isEmpty then true else keywords.any (fun k => pyIn k t)

/-- `match_exclusions` from `app.py`: lowercase the text, then any-substring
over the exclusions; vacuously false when the exclusion list is empty. -/
def match_exclusions (text : String) (exclude : List String) : Bool :=
  let t := pyLower text
  if exclude.isEmpty then false else exclude.any (fun k => pyIn k t)

/-- The concatenated text `" ".join([title, summary, description])` built in
the `fetch_jobs` loop, with `getattr` defaulting each field to `""`. -/
def entryText (e : Entry) : String :=
  (e.title.getD "") ++ " " ++ (e.summary.getD "") ++ " " ++ (e.description.getD "")

/-- `getattr(e, "published_parsed", None) or getattr(e, "updated_parsed", None)`. -/
def entryTimestamp (e : Entry) : Option Tm :=
  match e.published_parsed with
  | some t => some t
  | none => e.updated_parsed

/-- The three filter checks of the `fetch_jobs` loop: an entry is appended
iff it is within the window, matches the keywords and does not match the
exclusions. -/
def survives (keywords exclude : List String) (hours now : Int) (e : Entry) : Bool :=
  within_hours (entryTimestamp e) hours now
    && match_keywords (entryText e) keywords
    && !match_exclusions (entryText e) exclude

/-- `normalize_entry` from `app.py`. -/
def normalize_entry (e : Entry) : Item :=
  let published : Option String :=
    match e.published_parsed with
    | some t => some (isoformat t)
    | none =>
      match e.updated_parsed with
      | some t => some (isoformat t)
      | none => none
  Item.posting (e.title.getD "") (e.link.getD "") (e.summary.getD "") published
    (netloc (e.link.getD ""))

/-- Outcome of `feedparser.parse(url)`: a parsed entry list, or a raised
exception carrying a message, caught by the `except` clause. -/
inductive FetchOutcome where
  | ok (entries : List Entry)
  | err (message : String)

/-- One iteration of the per-feed loop of `fetch_jobs`: on success, the
filtered entries normalized in order; on failure, the single error record
`{"error": f"Failed to parse {url}: {ex}"}`. -/
def processFeed (env : String → FetchOutcome) (keywords exclude : List String)
    (hours now : Int) (url : String) : List Item :=
  match env url with
  | .ok entries => (entries.filter (survives keywords exclude hours now)).map normalize_entry
  | .err msg => [Item.fetchError ("Failed to parse " ++ url ++ ": " ++ msg)]

/-- The `results` list accumulated by the per-feed loop of `fetch_jobs`. -/
def gatherResults (env : String → FetchOutcome) (keywords exclude : List String)
    (hours now : Int) : List String → List Item
  | [] => []
  | url :: rest =>
    processFeed env keywords exclude hours now url
      ++ gatherResults env keywords exclude hours now rest

/-- The dedup key `(r.get("link"), r.get("title"))`. -/
def itemKey (r : Item) : Option String × Option String := (r.getLink, r.getTitle)

/-- The dedup loop of `fetch_jobs` with its `seen` set of keys. -/
def dedupAux (seen : List (Option String × Option String)) : List Item → List Item
  | [] => []
  | r :: rs =>
    if itemKey r ∈ seen then dedupAux seen rs
    else r :: dedupAux (itemKey r :: seen) rs

/-- The de-duplication pass of `fetch_jobs` (`seen` starts empty). -/
def dedup (results : List Item) : List Item := dedupAux [] results

/-- The sort key `r.get("published") or ""`. -/
def sortKey (r : Item) : String := (Item.getPublished r).getD ""

/-- Stable descending insertion by `sortKey` under Python string order:
the new element passes only elements with a strictly greater key, so equal
keys keep their original relative order. -/
def insertDescByKey (x : Item) : List Item → List Item
  | [] => [x]
  | y :: ys =>
    if pyStrLt (sortKey x) (sortKey y) then y :: insertDescByKey x ys
    else x :: y :: ys

/-- `deduped.sort(key=lambda r: r.get("published") or "", reverse=True)`:
a stable sort, descending by the key. -/
def sortDescByKey : List Item → List Item
  | [] => []
  | x :: xs => insertDescByKey x (sortDescByKey xs)

/-- `fetch_jobs` from `app.py`: gather per-feed results, de-duplicate by
`(link, title)`, sort newest-first. -/
def fetch_jobs (env : String → FetchOutcome) (now : Int)
    (feeds keywords exclude : List String) (hours : Int) : List Item :=
  sortDescByKey (dedup (gatherResults env keywords exclude hours now feeds))

/-- The effective configuration built by `get_config`. -/
structure Config where
  feeds : List String
  keywords : List String
  exclude : List String
  hours : Int
deriving DecidableEq

/-- `get_config` from `app.py`, over explicit environment values. -/
def get_config (feed_urls_env : String) (feeds_file : Option (List String))
    (keywords_env exclude_env : String) (hours_env : Int) : Config :=
  Config.mk (resolveFeeds feed_urls_env feeds_file)
    ((parse_env_list keywords_env).map pyLower)
    ((parse_env_list exclude_env).map pyLower)
    hours_env

/-- The response of the `/jobs` HTTP handler: either the explicit
`JSONResponse(status_code=400, ...)` or the structured success body. -/
inductive HttpResponse where
  | clientError (status : Nat) (message : String)
  | ok (count : Nat) (hours : Int) (keywords exclude : List String) (items : List Item)
deriving DecidableEq

/-- The `jobs` endpoint of `app.py`. Query parameters default to `None`;
`hours` is compared with `is not None`, while the keyword overrides use
truthiness (an empty string also falls back to the configuration). -/
def jobs_handler (env : String → FetchOutcome) (now : Int) (cfg : Config)
    (hoursQ : Option Int) (keywordsQ excludeQ : Option String) : HttpResponse :=
  let hrs := match hoursQ with | some h => h | none => cfg.hours
  let ks :=
    match keywordsQ with
    | some s =>
      if s.data.isEmpty then cfg.keywords
      else (pySplitComma s).map (fun k => pyLower (pyStrip k))
    | none => cfg.keywords
  let ex :=
    match excludeQ with
    | some s =>
      if s.data.isEmpty then cfg.exclude
      else (pySplitComma s).map (fun k => pyLower (pyStrip k))
    | none => cfg.exclude
  if cfg.feeds.isEmpty then
    HttpResponse.clientError 400 "No feeds configured. Set FEED_URLS or provide feeds.example.txt."
  else
    let items := fetch_jobs env now cfg.feeds ks ex hrs
    HttpResponse.ok items.length hrs ks ex items

/-- Printing one item in the CLI loop. A posting prints its title/source
line, its link line, and a published line when `it['published']` is truthy.
An error record has no `title` key, so `it['title']` raises `KeyError`:
modelled as `none`. -/
def printPosting (r : Item) : Option (List String) :=
  match r with
  | .posting t li _ p so =>
    some (["- " ++ t ++ "  [" ++ so ++ "]", "  " ++ li]
      ++ (match p with
          | some ps => if ps.data.isEmpty then [] else ["  published: " ++ ps]
          | none => []))
  | .fetchError _ => none

/-- Printing a list of items, propagating the first `KeyError`. -/
def printItems : List Item → Option (List String)
  | [] => some []
  | r :: rs =>
    match printPosting r with
    | none => none
    | some ls =>
      match printItems rs with
      | none => none
      | some rest => some (ls ++ rest)

/-- Observable outcome of the CLI one-shot branch of `main`. -/
inductive CliOutcome where
  | noFeeds (message : String)
  | listing (count : Nat) (hours : Int) (lines : List String)
  | keyErrorFault
deriving DecidableEq

/-- The `--once` branch of `main` in `app.py`: unconfigured message, or the
summary count plus the printed first 25 items, or an uncaught `KeyError`
from printing an error record. -/
def main_once (env : String → FetchOutcome) (now : Int) (cfg : Config) : CliOutcome :=
  if cfg.feeds.isEmpty then
    CliOutcome.noFeeds "No feeds configured. Set FEED_URLS or provide feeds.example.txt"
  else
    let items := fetch_jobs env now cfg.feeds cfg.keywords cfg.exclude cfg.hours
    match printItems (items.take 25) with
    | some lines => CliOutcome.listing items.length cfg.hours lines
    | none => CliOutcome.keyErrorFault

/-! Supporting lemmas about the embedded operations. -/

theorem charListLt_irrefl (a : List Char) : charListLt a a = false := by
  induction a with
  | nil => rfl
  | cons c cs ih => simp [charListLt, ih, lt_irrefl]

theorem charListLt_asymm : ∀ a b : List Char, charListLt a b = true → charListLt b a = false := by
  intro a
  induction a with
  | nil =>
    intro b h
    cases b with
    | nil => simp [charListLt] at h
    | cons d ds => rfl
  | cons c cs ih =>
    intro b h
    cases b with
    | nil => simp [charListLt] at h
    | cons d ds =>
      simp only [charListLt, Bool.or_eq_true, Bool.and_eq_true, decide_eq_true_eq,
        beq_iff_eq] at h
      simp only [charListLt, Bool.or_eq_false_iff, Bool.and_eq_false_iff,
        decide_eq_false_iff_not, beq_eq_false_iff_ne, ne_eq]
      rcases h with hlt | ⟨heq, hrec⟩
      · exact ⟨not_lt_of_lt hlt, Or.inl (fun he => absurd (he ▸ hlt) (lt_irrefl _))⟩
      · subst heq
        exact ⟨lt_irrefl c, Or.inr (ih ds hrec)⟩

theorem charListLt_negtrans : ∀ a b c : List Char,
    charListLt a b = false → charListLt b c = false → charListLt a c = false := by
  intro a
  induction a with
  | nil =>
    intro b c h1 h2
    cases c with
    | nil => rfl
    | cons z zs =>
      cases b with
      | nil => simp [charListLt] at h2
      | cons y ys => simp [charListLt] at h1
  | cons x xs ih =>
    intro b c h1 h2
    cases c with
    | nil => rfl
    | cons z zs =>
      cases b with
      | nil => simp [charListLt] at h2
      | cons y ys =>
        simp only [charListLt, Bool.or_eq_false_iff, Bool.and_eq_false_iff,
          decide_eq_false_iff_not, beq_eq_false_iff_ne, ne_eq] at h1 h2 ⊢
        obtain ⟨hxy, h1r⟩ := h1
        obtain ⟨hyz, h2r⟩ := h2
        have hzy : z ≤ y := le_of_not_lt hyz
        have hyx : y ≤ x := le_of_not_lt hxy
        refine ⟨not_lt_of_le (le_trans hzy hyx), ?_⟩
        by_cases hxz : x = z
        · subst hxz
          have hyx2 : y = x := le_antisymm hyx hzy
          subst hyx2
          have e1 : charListLt xs ys = false := by
            rcases h1r with h | h
            · exact absurd rfl h
            · exact h
          have e2 : charListLt ys zs = false := by
            rcases h2r with h | h
            · exact absurd rfl h
            · exact h
          exact Or.inr (ih ys zs e1 e2)
        · exact Or.inl hxz

theorem charListLt_nil_false : ∀ {b : List Char}, charListLt [] b = false → b = []
  | [], _ => rfl
  | d :: ds, h => by simp [charListLt] at h

theorem pyStrLt_irrefl (a : String) : pyStrLt a a = false := charListLt_irrefl _

theorem pyStrLt_asymm {a b : String} (h : pyStrLt a b = true) : pyStrLt b a = false :=
  charListLt_asymm _ _ h

theorem pyStrLt_negtrans {a b c : String} (h1 : pyStrLt a b = false)
    (h2 : pyStrLt b c = false) : pyStrLt a c = false :=
  charListLt_negtrans _ _ _ h1 h2

theorem pyStrLt_empty_false : ∀ {s : String}, pyStrLt "" s = false → s = ""
  | ⟨cs⟩, h => by
    have h2 : cs = [] := charListLt_nil_false h
    subst h2
    rfl

theorem dedupAux_sublist : ∀ (l : List Item) (seen), List.Sublist (dedupAux seen l) l := by
  intro l
  induction l with
  | nil => intro seen; exact List.Sublist.refl _
  | cons r rs ih =>
    intro seen
    by_cases h : itemKey r ∈ seen
    · rw [dedupAux, if_pos h]
      exact (ih seen).cons r
    · rw [dedupAux, if_neg h]
      exact (ih _).cons₂ r

theorem dedupAux_filter (k : Option String × Option String) :
    ∀ (l : List Item) (seen),
      (dedupAux seen l).filter (fun r => decide (itemKey r = k))
        = if k ∈ seen then [] else (l.filter (fun r => decide (itemKey r = k))).take 1 := by
  intro l
  induction l with
  | nil => intro seen; by_cases h : k ∈ seen <;> simp [dedupAux, h]
  | cons r rs ih =>
    intro seen
    by_cases hr : itemKey r ∈ seen
    · rw [dedupAux, if_pos hr, ih]
      by_cases hk : k ∈ seen
      · simp [hk]
      · have hne : ¬ itemKey r = k := fun he => hk (he ▸ hr)
        simp [hk, List.filter_cons, hne]
    · rw [dedupAux, if_neg hr]
      by_cases hrk : itemKey r = k
      · have hk : k ∉ seen := fun hin => hr (hrk ▸ hin)
        have hmem : k ∈ itemKey r :: seen := by rw [hrk]; exact List.mem_cons_self _ _
        rw [List.filter_cons, if_pos (by simp [hrk]), ih, if_pos hmem]
        simp [hk, List.filter_cons, hrk]
      · rw [List.filter_cons, if_neg (by simp [hrk]), ih]
        have hiff : (k ∈ itemKey r :: seen) ↔ (k ∈ seen) := by
          constructor
          · intro hin
            rcases List.mem_cons.mp hin with he | hs
            · exact absurd he.symm hrk
            · exact hs
          · exact fun hs => List.mem_cons_of_mem _ hs
        by_cases hk : k ∈ seen
        · rw [if_pos (by rw [hiff]; exact hk), if_pos hk]
        · rw [if_neg (by rw [hiff]; exact hk), if_neg hk, List.filter_cons,
            if_neg (by simp [hrk])]

theorem dedup_sublist (l : List Item) : List.Sublist (dedup l) l := dedupAux_sublist l []

theorem dedup_filter (k : Option String × Option String) (l : List Item) :
    (dedup l).filter (fun r => decide (itemKey r = k))
      = (l.filter (fun r => decide (itemKey r = k))).take 1 := by
  rw [dedup, dedupAux_filter, if_neg (List.not_mem_nil k)]

theorem dedup_key_mem {r : Item} {l : List Item} (h : r ∈ l) :
    ∃ q, q ∈ dedup l ∧ itemKey q = itemKey r := by
  have hmem : r ∈ l.filter (fun q => decide (itemKey q = itemKey r)) :=
    List.mem_filter.mpr ⟨h, by simp⟩
  have hf := dedup_filter (itemKey r) l
  cases hl : l.filter (fun q => decide (itemKey q = itemKey r)) with
  | nil => rw [hl] at hmem; exact absurd hmem (List.not_mem_nil r)
  | cons q qs =>
    rw [hl] at hf
    simp only [List.take_succ_cons, List.take_zero] at hf
    have hq : q ∈ (dedup l).filter (fun q => decide (itemKey q = itemKey r)) := by
      rw [hf]; exact List.mem_cons_self _ _
    refine ⟨q, List.mem_of_mem_filter hq, ?_⟩
    have := List.of_mem_filter hq
    simpa using this


theorem mem_insertDescByKey {y x : Item} :
    ∀ l : List Item, y ∈ insertDescByKey x l ↔ y = x ∨ y ∈ l := by
  intro l
  induction l with
  | nil => simp [insertDescByKey]
  | cons z zs ih =>
    by_cases h : pyStrLt (sortKey x) (sortKey z) = true
    · rw [insertDescByKey, if_pos h]
      simp only [List.mem_cons, ih]
      tauto
    · rw [insertDescByKey, if_neg h]
      simp only [List.mem_cons]

theorem insertDescByKey_perm (x : Item) :
    ∀ l : List Item, List.Perm (insertDescByKey x l) (x :: l) := by
  intro l
  induction l with
  | nil => exact List.Perm.refl _
  | cons z zs ih =>
    by_cases h : pyStrLt (sortKey x) (sortKey z) = true
    · rw [insertDescByKey, if_pos h]
      exact (ih.cons z).trans (List.Perm.swap x z zs)
    · rw [insertDescByKey, if_neg h]

theorem sortDescByKey_perm : ∀ l : List Item, List.Perm (sortDescByKey l) l := by
  intro l
  induction l with
  | nil => exact List.Perm.refl _
  | cons x xs ih =>
    rw [sortDescByKey]
    exact (insertDescByKey_perm x _).trans (ih.cons x)

theorem pairwise_insertDescByKey {x : Item} :
    ∀ {l : List Item},
      List.Pairwise (fun a b => pyStrLt (sortKey a) (sortKey b) = false) l →
      List.Pairwise (fun a b => pyStrLt (sortKey a) (sortKey b) = false)
        (insertDescByKey x l) := by
  intro l
  induction l with
  | nil => intro _; simp [insertDescByKey]
  | cons z zs ih =>
    intro h
    rcases List.pairwise_cons.mp h with ⟨hz, hzs⟩
    by_cases hlt : pyStrLt (sortKey x) (sortKey z) = true
    · rw [insertDescByKey, if_pos hlt]
      refine List.pairwise_cons.mpr ⟨?_, ih hzs⟩
      intro b hb
      rcases (mem_insertDescByKey zs).mp hb with he | hm
      · subst he
        exact pyStrLt_asymm hlt
      · exact hz b hm
    · rw [insertDescByKey, if_neg hlt]
      have hlt2 : pyStrLt (sortKey x) (sortKey z) = false := Bool.eq_false_iff.mpr hlt
      refine List.pairwise_cons.mpr ⟨?_, h⟩
      intro b hb
      rcases List.mem_cons.mp hb with he | hm
      · subst he; exact hlt2
      · exact pyStrLt_negtrans hlt2 (hz b hm)

theorem sortDescByKey_pairwise :
    ∀ l : List Item,
      List.Pairwise (fun a b => pyStrLt (sortKey a) (sortKey b) = false)
        (sortDescByKey l) := by
  intro l
  induction l with
  | nil => exact List.Pairwise.nil
  | cons x xs ih =>
    rw [sortDescByKey]
    exact pairwise_insertDescByKey ih

theorem filter_insertDescByKey (x : Item) (k : String) :
    ∀ l : List Item,
      (insertDescByKey x l).filter (fun r => decide (sortKey r = k))
        = if sortKey x = k then x :: l.filter (fun r => decide (sortKey r = k))
          else l.filter (fun r => decide (sortKey r = k)) := by
  intro l
  induction l with
  | nil => by_cases h : sortKey x = k <;> simp [insertDescByKey, h]
  | cons z zs ih =>
    by_cases hlt : pyStrLt (sortKey x) (sortKey z) = true
    · rw [insertDescByKey, if_pos hlt]
      by_cases hk : sortKey x = k
      · have hzk : ¬ sortKey z = k := by
          intro hz
          rw [hk, hz, pyStrLt_irrefl] at hlt
          exact Bool.false_ne_true hlt
        simp [List.filter_cons, hzk, ih, hk]
      · simp [List.filter_cons, ih, hk]
    · rw [insertDescByKey, if_neg hlt]
      simp [List.filter_cons]

theorem filter_sortDescByKey (k : String) :
    ∀ l : List Item,
      (sortDescByKey l).filter (fun r => decide (sortKey r = k))
        = l.filter (fun r => decide (sortKey r = k)) := by
  intro l
  induction l with
  | nil => rfl
  | cons x xs ih =>
    rw [sortDescByKey, filter_insertDescByKey, ih, List.filter_cons]
    by_cases hk : sortKey x = k
    · rw [if_pos hk, if_pos (by simp [hk])]
    · rw [if_neg hk, if_neg (by simp [hk])]

theorem gatherResults_append (env : String → FetchOutcome) (keywords exclude : List String)
    (hours now : Int) :
    ∀ l1 l2 : List String,
      gatherResults env keywords exclude hours now (l1 ++ l2)
        = gatherResults env keywords exclude hours now l1
          ++ gatherResults env keywords exclude hours now l2 := by
  intro l1 l2
  induction l1 with
  | nil => rfl
  | cons u us ih =>
    rw [List.cons_append, gatherResults, gatherResults, ih, List.append_assoc]

theorem mem_gatherResults_of_mem {env : String → FetchOutcome}
    {keywords exclude : List String} {hours now : Int} {url : String} {r : Item} :
    ∀ {feeds : List String}, url ∈ feeds →
      r ∈ processFeed env keywords exclude hours now url →
      r ∈ gatherResults env keywords exclude hours now feeds := by
  intro feeds
  induction feeds with
  | nil => intro h; exact absurd h (List.not_mem_nil url)
  | cons u us ih =>
    intro hmem hr
    rw [gatherResults]
    rcases List.mem_cons.mp hmem with he | hm
    · subst he
      exact List.mem_append_left _ hr
    · exact List.mem_append_right _ (ih hm hr)

theorem of_mem_gatherResults {env : String → FetchOutcome}
    {keywords exclude : List String} {hours now : Int} {r : Item} :
    ∀ {feeds : List String}, r ∈ gatherResults env keywords exclude hours now feeds →
      ∃ url, url ∈ feeds ∧ r ∈ processFeed env keywords exclude hours now url := by
  intro feeds
  induction feeds with
  | nil => intro h; exact absurd h (List.not_mem_nil r)
  | cons u us ih =>
    intro h
    rw [gatherResults] at h
    rcases List.mem_append.mp h with hl | hr
    · exact ⟨u, List.mem_cons_self _ _, hl⟩
    · obtain ⟨url, hm, hp⟩ := ih hr
      exact ⟨url, List.mem_cons_of_mem _ hm, hp⟩

theorem normalize_entry_eq (e : Entry) :
    normalize_entry e
      = Item.posting (e.title.getD "") (e.link.getD "") (e.summary.getD "")
          ((entryTimestamp e).map isoformat) (netloc (e.link.getD "")) := by
  cases hp : e.published_parsed <;> cases hu : e.updated_parsed <;>
    simp [normalize_entry, entryTimestamp, hp, hu]

theorem isError_eq_key (r : Item) :
    r.isError = decide (itemKey r = ((none : Option String), (none : Option String))) := by
  cases r <;> rfl

theorem perm_eq_of_length_le_one {l1 l2 : List Item}
    (h : List.Perm l1 l2) (hl : l2.length ≤ 1) : l1 = l2 := by
  cases l2 with
  | nil => exact h.eq_nil
  | cons a t =>
    cases t with
    | nil => exact List.perm_singleton.mp h
    | cons b t2 => simp at hl

/-! Claim theorems and their concrete instantiations. -/

/-- A fetch environment in which every feed fails to parse. -/
def envTwoBad : String → FetchOutcome := fun url =>
  if url = "feedA" then FetchOutcome.err "boom" else FetchOutcome.err "bang"

/-- A concrete feed timestamp, 2020-01-01 00:00:00 UTC. -/
def tmW : Tm := Tm.mk 2020 1 1 0 0 0

/-- A concrete raw entry carrying a title, link and timestamp. -/
def entryW : Entry :=
  Entry.mk (some "devops role") (some "http://ex.com/j") none none (some tmW) none

/-- A concrete current instant one hour after `tmW`. -/
def nowW : Int := toEpoch (Tm.mk 2020 1 1 1 0 0)

/-- A fetch environment with one failing feed and one good feed. -/
def envMixed : String → FetchOutcome := fun url =>
  if url = "feedBad" then FetchOutcome.err "boom" else FetchOutcome.ok [entryW]

/-- A concrete entry whose text matches both a keyword and an exclusion. -/
def entryIntern : Entry := Entry.mk (some "DevOps Intern") none none none none none

/-- Concrete postings without a published value. -/
def pNone1 : Item := Item.posting "t1" "l1" "" none ""
def pNone2 : Item := Item.posting "t2" "l2" "" none ""
/-- Concrete postings sharing one `(link, title)` key. -/
def pDup1 : Item := Item.posting "T" "L" "s1" (some "2024") "h"
def pDup2 : Item := Item.posting "T" "L" "s2" (some "2023") "h"

/-- The normalized posting produced from `entryW`. -/
def postingW : Item :=
  Item.posting "devops role" "http://ex.com/j" "" (some "2020-01-01T00:00:00+00:00") "ex.com"

/-- C3: for every entry and non-negative `hours`, the recency predicate is
true iff a timestamp is present and no older than `hours` hours before the
current UTC instant, with an inclusive boundary: a timestamp exactly `hours`
hours old passes, a strictly older one is excluded, and an entry with no
timestamp is always excluded. -/
theorem within_hours_window (hours now : Int) (h : 0 ≤ hours) :
    within_hours none hours now = false
  ∧ (∀ t : Tm, (within_hours (some t) hours now = true ↔ now - hours * 3600 ≤ toEpoch t))
  ∧ (∀ t : Tm, toEpoch t = now - hours * 3600 → within_hours (some t) hours now = true)
  ∧ (∀ t : Tm, toEpoch t < now - hours * 3600 → within_hours (some t) hours now = false) := by
  refine ⟨rfl, fun t => ?_, fun t ht => ?_, fun t ht => ?_⟩
  · simp [within_hours]
  · simp [within_hours, ht]
  · simp [within_hours]
    omega

/-- Instantiation of the previous theorem at a concrete input. -/
theorem within_hours_window_witness :
    ((0 : Int) ≤ 24)
  ∧ within_hours (some (Tm.mk 2020 1 1 0 0 0)) 24 (toEpoch (Tm.mk 2020 1 2 0 0 0)) = true := by
  refine ⟨by omega, ?_⟩
  exact (within_hours_window 24 (toEpoch (Tm.mk 2020 1 2 0 0 0)) (by omega)).2.2.1 _ (by decide)

/-- C4: a raw entry survives the filter stage iff it is within the window,
matches the keywords, and does not match the exclusions; an empty keyword
list matches vacuously, an empty exclusion list excludes nothing, and an
entry matching an exclusion keyword is excluded no matter what it also
matches (exclusion wins). -/
theorem filter_stage_semantics (e : Entry) (keywords exclude : List String) (hours now : Int) :
    (survives keywords exclude hours now e = true ↔
      (within_hours (entryTimestamp e) hours now = true
        ∧ match_keywords (entryText e) keywords = true
        ∧ match_exclusions (entryText e) exclude = false))
  ∧ (∀ text : String, match_keywords text [] = true)
  ∧ (∀ text : String, match_exclusions text [] = false)
  ∧ (match_exclusions (entryText e) exclude = true →
      survives keywords exclude hours now e = false) := by
  refine ⟨?_, fun _ => rfl, fun _ => rfl, fun hx => ?_⟩
  · simp [survives, Bool.and_eq_true, Bool.not_eq_true', and_assoc]
  · simp [survives, hx]

/-- Instantiation of the previous theorem at a concrete input. -/
theorem filter_stage_semantics_witness :
    match_exclusions (entryText entryIntern) ["intern"] = true
  ∧ survives ["devops"] ["intern"] 24 0 entryIntern = false := by
  refine ⟨by decide, ?_⟩
  exact (filter_stage_semantics entryIntern ["devops"] ["intern"] 24 0).2.2.2 (by decide)

/-- C5: the final output is ordered by `published` descending under the
string order used by the program (first conjunct), ties — equal keys,
including all absent/empty ones — preserve their relative order from the
dedup step (second conjunct, filtering by any key value is unchanged by the
sort), and an item with an absent or empty `published` key is never followed
by one with a non-empty key, i.e. such items sink to the end (third
conjunct). -/
theorem aggregator_sort_spec (l : List Item) :
    List.Pairwise (fun a b => pyStrLt (sortKey a) (sortKey b) = false) (sortDescByKey l)
  ∧ (∀ k : String, (sortDescByKey l).filter (fun r => decide (sortKey r = k))
        = l.filter (fun r => decide (sortKey r = k)))
  ∧ (∀ (l1 : List Item) (a : Item) (l2 : List Item) (b : Item) (l3 : List Item),
        sortDescByKey l = l1 ++ a :: l2 ++ b :: l3 → sortKey a = "" → sortKey b = "") := by
  refine ⟨sortDescByKey_pairwise l, fun k => filter_sortDescByKey k l, ?_⟩
  intro l1 a l2 b l3 heq ha
  have hpw := sortDescByKey_pairwise l
  rw [heq] at hpw
  have hsub : List.Sublist [a, b] (l1 ++ (a :: l2) ++ (b :: l3)) := by
    have h1 : List.Sublist [a] (l1 ++ (a :: l2)) :=
      ((List.nil_sublist l2).cons₂ a).trans (List.sublist_append_right l1 (a :: l2))
    exact h1.append ((List.nil_sublist l3).cons₂ b)
  have hab : pyStrLt (sortKey a) (sortKey b) = false :=
    List.pairwise_iff_forall_sublist.mp hpw hsub
  rw [ha] at hab
  exact pyStrLt_empty_false hab

/-- Instantiation of the previous theorem at a concrete input. -/
theorem aggregator_sort_spec_witness :
    sortDescByKey [pNone1, pNone2] = [] ++ pNone1 :: [] ++ pNone2 :: []
  ∧ sortKey pNone1 = ""
  ∧ sortKey pNone2 = "" :=
  ⟨by decide, by decide,
    (aggregator_sort_spec [pNone1, pNone2]).2.2 [] pNone1 [] pNone2 [] (by decide) (by decide)⟩

/-- C6: for every sequence of `JobPosting` items, deduplication keeps a
subsequence of the input (stable, never reordering), and for each
`(link, title)` key exactly the first occurrence survives: the items of the
output with a given key are the first item of the input with that key. -/
theorem dedup_first_wins (l : List Item) (h : ∀ r ∈ l, r.isPosting = true) :
    List.Sublist (dedup l) l
  ∧ (∀ k : Option String × Option String,
       (dedup l).filter (fun r => decide (itemKey r = k))
         = (l.filter (fun r => decide (itemKey r = k))).take 1) :=
  ⟨dedup_sublist l, fun k => dedup_filter k l⟩

/-- Instantiation of the previous theorem at a concrete input. -/
theorem dedup_first_wins_witness :
    (∀ r ∈ [pDup1, pDup2], r.isPosting = true)
  ∧ (dedup [pDup1, pDup2]).filter
        (fun r => decide (itemKey r = ((some "L" : Option String), (some "T" : Option String))))
      = [pDup1] := by
  refine ⟨by decide, ?_⟩
  exact ((dedup_first_wins [pDup1, pDup2] (by decide)).2 (some "L", some "T")).trans (by decide)

/-- C1 is false as stated: with two failed feeds, the second
`FeedFetchError` record is in the aggregator's input but not in its output,
because both error records share the dedup key `(None, None)`; the full
pipeline on two failing feeds returns only the first error record. -/
theorem error_passthrough_counterexample :
    Item.fetchError "Failed to parse feedB: bang"
        ∈ [Item.fetchError "Failed to parse feedA: boom",
           Item.fetchError "Failed to parse feedB: bang"]
  ∧ Item.fetchError "Failed to parse feedB: bang"
        ∉ sortDescByKey (dedup [Item.fetchError "Failed to parse feedA: boom",
            Item.fetchError "Failed to parse feedB: bang"])
  ∧ fetch_jobs envTwoBad 0 ["feedA", "feedB"] [] [] 24
        = [Item.fetchError "Failed to parse feedA: boom"] :=
  ⟨by decide, by decide, by decide⟩

/-- C1 amended: a `FeedFetchError` record's dedup key `(None, None)` never
collides with a posting's key, so errors are never deduplicated against
postings; but all error records share that one key, so exactly the first
error record of the aggregator input (and no later one) passes through to
the final result set. -/
theorem error_records_single_passthrough (env : String → FetchOutcome) (now : Int)
    (feeds keywords exclude : List String) (hours : Int) :
    (∀ (m t li s so : String) (p : Option String),
        itemKey (Item.fetchError m) ≠ itemKey (Item.posting t li s p so))
  ∧ (fetch_jobs env now feeds keywords exclude hours).filter Item.isError
      = ((gatherResults env keywords exclude hours now feeds).filter Item.isError).take 1 := by
  constructor
  · intro m t li s so p
    simp [itemKey, Item.getLink, Item.getTitle]
  · have hkey : ∀ l' : List Item, l'.filter Item.isError
        = l'.filter (fun r => decide (itemKey r = ((none : Option String), none))) := by
      intro l'
      exact List.filter_congr (fun r _ => isError_eq_key r)
    rw [fetch_jobs, hkey, hkey]
    have hperm := (sortDescByKey_perm
        (dedup (gatherResults env keywords exclude hours now feeds))).filter
        (fun r => decide (itemKey r = ((none : Option String), none)))
    rw [dedup_filter] at hperm
    refine perm_eq_of_length_le_one hperm ?_
    rw [List.length_take]
    exact Nat.min_le_left _ _

/-- Instantiation of the previous theorem at a concrete input. -/
theorem error_records_single_passthrough_witness :
    itemKey (Item.fetchError "Failed to parse feedA: boom")
        ≠ itemKey (Item.posting "t" "l" "s" none "h")
  ∧ (fetch_jobs envTwoBad 0 ["feedA", "feedB"] [] [] 24).filter Item.isError
      = ((gatherResults envTwoBad [] [] 24 0 ["feedA", "feedB"]).filter Item.isError).take 1 :=
  ⟨(error_records_single_passthrough envTwoBad 0 ["feedA", "feedB"] [] [] 24).1
      "Failed to parse feedA: boom" "t" "l" "s" "h" none,
    (error_records_single_passthrough envTwoBad 0 ["feedA", "feedB"] [] [] 24).2⟩

/-- C7: when the parsed explicit comma-separated list is non-empty the
resolver returns it verbatim (trimmed, empty entries dropped) for any state
of the file, never consulting the file; otherwise it returns the file's
lines with blank and `#`-comment lines skipped; a missing file yields the
empty list rather than a failure. -/
theorem feed_source_resolution (feed_urls_env : String) (feeds_file : Option (List String)) :
    (parse_env_list feed_urls_env ≠ [] →
        resolveFeeds feed_urls_env feeds_file = parse_env_list feed_urls_env)
  ∧ (parse_env_list feed_urls_env = [] →
        resolveFeeds feed_urls_env feeds_file = load_feeds_from_file feeds_file)
  ∧ (parse_env_list feed_urls_env = [] → resolveFeeds feed_urls_env none = [])
  ∧ parse_env_list feed_urls_env
      = ((pySplitComma feed_urls_env).map pyStrip).filter (fun v => !v.data.isEmpty)
  ∧ (∀ lines : List String, load_feeds_from_file (some lines)
      = (lines.filter
          (fun line => !(pyStrip line).data.isEmpty && !startsWithHash (pyStrip line))).map
        pyStrip) := by
  refine ⟨?_, ?_, ?_, ?_, fun _ => rfl⟩
  · intro h
    cases hp : parse_env_list feed_urls_env with
    | nil => exact absurd hp h
    | cons a as => simp [resolveFeeds, hp]
  · intro h
    simp [resolveFeeds, h]
  · intro h
    simp [resolveFeeds, h, load_feeds_from_file]
  · cases feed_urls_env with
    | mk data =>
      cases data with
      | nil => rfl
      | cons c cs => rfl

/-- Instantiation of the previous theorem at a concrete input. -/
theorem feed_source_resolution_witness :
    parse_env_list "a, ,b" ≠ []
  ∧ resolveFeeds "a, ,b" (some ["x", "# c", "", " y "]) = parse_env_list "a, ,b" :=
  ⟨by decide, (feed_source_resolution "a, ,b" (some ["x", "# c", "", " y "])).1 (by decide)⟩

/-- C8: a failing feed anywhere in the list contributes exactly one
`FeedFetchError` record to the gathered results, leaving the contributions
of the feeds before and after it untouched; and every surviving entry of
any successfully fetched feed in the list is still represented in the final
pipeline output by an item with its `(link, title)` key. -/
theorem per_feed_failure_isolation (env : String → FetchOutcome) (now : Int)
    (pre post : List String) (badUrl msg : String) (keywords exclude : List String)
    (hours : Int) (hbad : env badUrl = FetchOutcome.err msg) :
    gatherResults env keywords exclude hours now (pre ++ badUrl :: post)
      = gatherResults env keywords exclude hours now pre
        ++ Item.fetchError ("Failed to parse " ++ badUrl ++ ": " ++ msg)
          :: gatherResults env keywords exclude hours now post
  ∧ (∀ (goodUrl : String) (entries : List Entry) (e : Entry),
       goodUrl ∈ pre ++ badUrl :: post → env goodUrl = FetchOutcome.ok entries →
       e ∈ entries → survives keywords exclude hours now e = true →
       ∃ r, r ∈ fetch_jobs env now (pre ++ badUrl :: post) keywords exclude hours
            ∧ itemKey r = itemKey (normalize_entry e)) := by
  constructor
  · rw [gatherResults_append, gatherResults, processFeed, hbad, List.singleton_append]
  · intro goodUrl entries e hmemUrl henv hein hsurv
    have hpf : normalize_entry e ∈ processFeed env keywords exclude hours now goodUrl := by
      rw [processFeed, henv]
      exact List.mem_map_of_mem _ (List.mem_filter.mpr ⟨hein, hsurv⟩)
    obtain ⟨q, hq, hkey⟩ := dedup_key_mem (mem_gatherResults_of_mem hmemUrl hpf)
    refine ⟨q, ?_, hkey⟩
    rw [fetch_jobs]
    exact ((sortDescByKey_perm _).mem_iff).mpr hq

/-- Instantiation of the previous theorem at a concrete input. -/
theorem per_feed_failure_isolation_witness :
    envMixed "feedBad" = FetchOutcome.err "boom"
  ∧ (∃ r, r ∈ fetch_jobs envMixed nowW ["feedBad", "feedGood"] [] [] 24
        ∧ itemKey r = itemKey (normalize_entry entryW)) :=
  ⟨rfl,
    (per_feed_failure_isolation envMixed nowW [] ["feedGood"] "feedBad" "boom" [] [] 24 rfl).2
      "feedGood" [entryW] entryW (by decide) rfl (by decide) (by decide)⟩

/-- C9: when no feeds are resolved, the HTTP endpoint answers with status
400 and an error message — a constant independent of the fetch environment,
so the pipeline is not invoked — and the CLI one-shot prints the
explanatory message and exits cleanly without producing a listing. -/
theorem unconfigured_handling (env : String → FetchOutcome) (now : Int) (cfg : Config)
    (hoursQ : Option Int) (keywordsQ excludeQ : Option String) (h : cfg.feeds = []) :
    jobs_handler env now cfg hoursQ keywordsQ excludeQ
      = HttpResponse.clientError 400
          "No feeds configured. Set FEED_URLS or provide feeds.example.txt."
  ∧ main_once env now cfg
      = CliOutcome.noFeeds "No feeds configured. Set FEED_URLS or provide feeds.example.txt" := by
  constructor
  · simp [jobs_handler, h]
  · simp [main_once, h]

/-- Instantiation of the previous theorem at a concrete input. -/
theorem unconfigured_handling_witness :
    (Config.mk [] ["devops"] [] 24).feeds = []
  ∧ jobs_handler envTwoBad 0 (Config.mk [] ["devops"] [] 24) none none none
      = HttpResponse.clientError 400
          "No feeds configured. Set FEED_URLS or provide feeds.example.txt." :=
  ⟨rfl, (unconfigured_handling envTwoBad 0 (Config.mk [] ["devops"] [] 24) none none none rfl).1⟩

/-- C10: every `JobPosting` item in the pipeline output has a non-absent
`published` value, because entries lacking both timestamps are rejected by
the recency filter before normalization. -/
theorem postings_always_have_published (env : String → FetchOutcome) (now : Int)
    (feeds keywords exclude : List String) (hours : Int) :
    ∀ r ∈ fetch_jobs env now feeds keywords exclude hours,
      ∀ (t li s : String) (p : Option String) (so : String),
        r = Item.posting t li s p so → p.isSome = true := by
  intro r hr t li s p so hform
  rw [fetch_jobs] at hr
  have hr2 := ((sortDescByKey_perm _).mem_iff).mp hr
  have hr3 := (dedup_sublist _).subset hr2
  obtain ⟨url, hurl, hpf⟩ := of_mem_gatherResults hr3
  rw [processFeed] at hpf
  cases henv : env url with
  | err m =>
    rw [henv] at hpf
    rw [hform] at hpf
    simp at hpf
  | ok entries =>
    rw [henv] at hpf
    obtain ⟨e, he, hne⟩ := List.mem_map.mp hpf
    have hsurv := (List.mem_filter.mp he).2
    rw [← hne, normalize_entry_eq] at hform
    injection hform with h1 h2 h3 h4 h5
    cases hets : entryTimestamp e with
    | none =>
      rw [survives, hets] at hsurv
      simp [within_hours] at hsurv
    | some t0 =>
      rw [← h4, hets]
      rfl

/-- Instantiation of the previous theorem at a concrete input. -/
theorem postings_always_have_published_witness :
    postingW ∈ fetch_jobs envMixed nowW ["feedBad", "feedGood"] [] [] 24
  ∧ (some "2020-01-01T00:00:00+00:00" : Option String).isSome = true := by
  refine ⟨by decide, ?_⟩
  exact postings_always_have_published envMixed nowW ["feedBad", "feedGood"] [] [] 24 postingW
    (by decide) "devops role" "http://ex.com/j" "" (some "2020-01-01T00:00:00+00:00") "ex.com"
    (by decide)

/-- C2 fails on the code: `main` prints `it['title']` for every item of the
first 25, but an error record `{"error": ...}` has no `title` key, so the
dictionary access raises an uncaught `KeyError`; a single failing feed
yields a result set whose printing faults, contradicting the claim that
printing never propagates an unhandled fault. -/
theorem cli_print_key_error :
    printPosting (Item.fetchError "Failed to parse feedA: boom") = none
  ∧ fetch_jobs envTwoBad 0 ["feedA", "feedB"] [] [] 24
      = [Item.fetchError "Failed to parse feedA: boom"]
  ∧ main_once envTwoBad 0 (Config.mk ["feedA", "feedB"] [] [] 24) = CliOutcome.keyErrorFault :=
  ⟨rfl, by decide, by decide⟩

end JobScout
